import Mathlib

/-!
Shallow embedding of the libsql-search core (embeddings.ts, indexer.ts,
search.ts) and proofs about it.

Modelling conventions:
* Embedding scalars carry no arithmetic in the modelled code (the cosine
  distance is computed by the database engine, which is external), so they
  are modelled as `Int`.
* External collaborators (the filesystem walk, the front-matter parser, the
  remote embedding backends, the database client) are parameters gathered in
  environment structures; the repository's own logic is translated directly.
* JavaScript truthiness on strings (empty string is falsy) is modelled
  explicitly where the source relies on it.
-/

namespace LibsqlSearch

/-- Embedding scalars (floats in the source; no arithmetic is performed on
them by the modelled code, so integers are used). -/
abbrev Scalar := Int

/-! ### embeddings.ts : padEmbedding -/

/-- Translation of `padEmbedding` (embeddings.ts):
if the length already matches the target return the vector unchanged; if it
is longer take the first `targetDimensions` elements; otherwise the source
builds a zero array of length `targetDimensions` and splices the vector over
its front, i.e. the vector followed by zeros up to the target length. -/
def padEmbedding (embedding : List Scalar) (targetDimensions : Nat) : List Scalar :=
  if embedding.length = targetDimensions then
    embedding
  else if embedding.length > targetDimensions then
    embedding.take targetDimensions
  else
    embedding ++ List.replicate (targetDimensions - embedding.length) 0

/-! ### embeddings.ts : prepareTextForEmbedding -/

/-- The optional fields accepted by `prepareTextForEmbedding`. -/
structure EmbedFields where
  title : Option String := none
  description : Option String := none
  content : Option String := none
  tags : Option (List String) := none

/-- JavaScript truthiness for an optional string: `undefined` and the empty
string are falsy. -/
def truthyStr : Option String → Option String
  | some s => if s = "" then none else some s
  | none => none

/-- The contribution of one conditional `parts.push(field)` guarded by the
field's truthiness. -/
def pushTruthy (o : Option String) : List String :=
  match truthyStr o with
  | some x => [x]
  | none => []

/-- The contribution of the guarded tags push: the synthesized line
`'Tags: ' + tags.join(', ')` when `tags` is present with positive length. -/
def tagsPart : Option (List String) → List String
  | some ts => if ts.length > 0 then ["Tags: " ++ String.intercalate ", " ts] else []
  | none => []

/-- Translation of `prepareTextForEmbedding` (embeddings.ts): push `title`,
`description`, a synthesized tags line, then `content` when truthy /
non-empty, then `parts.filter(Boolean).join('\n\n')`. -/
def prepareTextForEmbedding (fields : EmbedFields) : String :=
  let parts : List String :=
    pushTruthy fields.title ++ pushTruthy fields.description ++
    tagsPart fields.tags ++ pushTruthy fields.content
  String.intercalate "\n\n" (parts.filter (fun p => p ≠ ""))

/-! ### embeddings.ts : generateEmbedding and the three providers -/

/-- Options record of `generateEmbedding`; `none` models an omitted field. -/
structure EmbeddingOptions where
  provider : Option String := none
  apiKey : Option String := none
  dimensions : Option Nat := none
  maxLength : Option Nat := none

/-- Observable side effects of a `generateEmbedding` call: an on-device
model inference, or a request sent to one of the remote backends. -/
inductive Effect where
  | localInference
  | geminiRequest
  | openaiRequest
deriving DecidableEq, Repr

/-- Result of a `generateEmbedding` call: the value or thrown error,
together with the trace of backend effects the call performed. -/
structure GenResult where
  out : Except String (List Scalar)
  effects : List Effect
deriving Repr

/-- Environment of external collaborators for embedding generation:
the local model's raw output, the Gemini backend's returned values, the
OpenAI endpoint's response (or error body), and the two process
environment variables. -/
structure EmbedEnv where
  localModel : String → List Scalar
  geminiValues : String → List Scalar
  openaiResponse : String → Nat → Except String (List Scalar)
  geminiEnvKey : Option String := none
  openaiEnvKey : Option String := none

/-- The source's `apiKey || process.env.X` chain followed by `if (!key)`:
an omitted or empty option falls back to the environment variable, and an
omitted or empty environment variable leaves no key. -/
def resolveKey (apiKey envKey : Option String) : Option String :=
  match truthyStr apiKey with
  | some k => some k
  | none => truthyStr envKey

/-- Translation of `generateLocalEmbedding` (embeddings.ts): run the cached
local model and pad/truncate its output to the target dimensionality. -/
def generateLocalEmbedding (env : EmbedEnv) (text : String)
    (targetDimensions : Nat) : GenResult :=
  { out := Except.ok (padEmbedding (env.localModel text) targetDimensions)
    effects := [Effect.localInference] }

/-- Translation of `generateGeminiEmbedding` (embeddings.ts): resolve the
key, throw before any client construction or request when it is missing,
otherwise return the backend's `result.embedding.values` unchanged. -/
def generateGeminiEmbedding (env : EmbedEnv) (text : String)
    (apiKey : Option String) : GenResult :=
  match resolveKey apiKey env.geminiEnvKey with
  | none =>
    { out := Except.error "GEMINI_API_KEY is required for Gemini embeddings"
      effects := [] }
  | some _ =>
    { out := Except.ok (env.geminiValues text)
      effects := [Effect.geminiRequest] }

/-- Translation of `generateOpenAIEmbedding` (embeddings.ts): resolve the
key, throw before any request when it is missing, otherwise POST to the
embeddings endpoint with the requested dimensions and either surface the
error body or return the response's embedding unchanged. -/
def generateOpenAIEmbedding (env : EmbedEnv) (text : String)
    (apiKey : Option String) (dimensions : Nat) : GenResult :=
  match resolveKey apiKey env.openaiEnvKey with
  | none =>
    { out := Except.error "OPENAI_API_KEY is required for OpenAI embeddings"
      effects := [] }
  | some _ =>
    match env.openaiResponse text dimensions with
    | Except.ok emb => { out := Except.ok emb, effects := [Effect.openaiRequest] }
    | Except.error body =>
      { out := Except.error ("OpenAI API error: " ++ body)
        effects := [Effect.openaiRequest] }

/-- Translation of `generateEmbedding` (embeddings.ts): apply the defaults
(provider "local", 768 dimensions, 8000 max length), truncate the text, and
dispatch on the provider name, throwing on an unrecognized name. -/
def generateEmbedding (env : EmbedEnv) (text : String)
    (options : EmbeddingOptions) : GenResult :=
  let provider := options.provider.getD "local"
  let dimensions := options.dimensions.getD 768
  let maxLength := options.maxLength.getD 8000
  let truncated := text.take maxLength
  if provider = "local" then
    generateLocalEmbedding env truncated dimensions
  else if provider = "gemini" then
    generateGeminiEmbedding env truncated options.apiKey
  else if provider = "openai" then
    generateOpenAIEmbedding env truncated options.apiKey dimensions
  else
    { out := Except.error ("Unknown embedding provider: " ++ provider)
      effects := [] }

/-! ### indexer.ts : path-derived fields

String manipulation from the source is translated at the character-list
level (`String.data`); the filesystem walk and the `path` module primitives
(`join`, `relative`, `dirname`) are external, so a discovered file is
modelled by its path segments relative to the content root, and the
relative path is their `/`-joined rendering. -/

/-- POSIX joining of path segments, as produced by the external
`path.join` / `path.relative` pair on the files the walk discovers. -/
def joinPath : List (List Char) → List Char
  | [] => []
  | [s] => s
  | s :: rest => s ++ '/' :: joinPath rest

/-- A file discovered by `findFiles`: the directory segments under the
content root and the file name. -/
structure FileEntry where
  dirs : List String
  name : String

/-- The `relativePath` recorded by `findFiles` for a discovered file. -/
def FileEntry.relativePath (f : FileEntry) : String :=
  String.mk (joinPath ((f.dirs ++ [f.name]).map String.data))

/-- Translation of the folder computation in `findFiles` (indexer.ts):
`dirname(relativePath)` — which is `"."` exactly when the file sits at the
content root — mapped to the sentinel `"root"` in that case. `path.dirname`
is external and is modelled at segment level: the `/`-joined directory
segments, `"."` when there are none. -/
def FileEntry.folder (f : FileEntry) : String :=
  let dirnameOfRel : String :=
    if f.dirs.isEmpty then "." else String.mk (joinPath (f.dirs.map String.data))
  if dirnameOfRel = "." then "root" else dirnameOfRel

/-- The regex `/\.(md|markdown)$/` with empty replacement: strip a final
`.md`, else a final `.markdown`, else leave the string unchanged. -/
def stripMdExtChars (s : List Char) : List Char :=
  if List.isSuffixOf ['.', 'm', 'd'] s then s.take (s.length - 3)
  else if List.isSuffixOf ['.', 'm', 'a', 'r', 'k', 'd', 'o', 'w', 'n'] s then
    s.take (s.length - 9)
  else s

/-- The regex `/\\/g` replaced by `'/'`: normalize backslash separators. -/
def normalizeSeps (s : List Char) : List Char :=
  s.map (fun c => if c = '\\' then '/' else c)

/-- The global replacement of the hyphen character by a space. -/
def dashesToSpaces (s : List Char) : List Char :=
  s.map (fun c => if c = '-' then ' ' else c)

/-- `relativePath.split('/').pop()`: the segment after the last slash
(`split` always yields at least one element, so `pop` always returns a
string). -/
def lastSegment (s : List Char) : List Char :=
  s.foldl (fun acc c => if c = '/' then [] else acc ++ [c]) []

/-- Translation of the slug computation in `processFile` (indexer.ts):
the relative path with the markdown extension stripped and backslashes
normalized to `/`. -/
def slugOfPath (relativePath : String) : String :=
  String.mk (normalizeSeps (stripMdExtChars relativePath.data))

/-- The filename-derived fallback title in `processFile` (indexer.ts):
last path segment, markdown extension stripped, hyphens to spaces. -/
def titleFromPath (relativePath : String) : String :=
  String.mk (dashesToSpaces (stripMdExtChars (lastSegment relativePath.data)))

/-- Translation of the title computation in `processFile` (indexer.ts):
`frontMatter.title || <filename derivation> || 'Untitled'` under JavaScript
truthiness (an empty string falls through to the next alternative). -/
def deriveTitle (fmTitle : Option String) (relativePath : String) : String :=
  match truthyStr fmTitle with
  | some t => t
  | none =>
    match truthyStr (some (titleFromPath relativePath)) with
    | some d => d
    | none => "Untitled"

/-! ### indexer.ts : processFile, insertDocument, indexContent -/

/-- The loosely-typed front matter returned by the external `gray-matter`
parser, restricted to the fields the indexer reads. `tags = some ts`
models `Array.isArray(frontMatter.tags)` holding with value `ts`. -/
structure FrontMatter where
  title : Option String := none
  description : Option String := none
  tags : Option (List String) := none

/-- The document record assembled by `processFile` and handed to
`insertDocument`. -/
structure Doc where
  slug : String
  title : String
  content : String
  folder : String
  tags : List String
  embedding : List Scalar
deriving Repr

/-- A write issued to the store by the indexer. -/
inductive StoreOp where
  | deleteAll
  | insertRow (d : Doc)
deriving Repr

/-- Environment of external collaborators for indexing: embedding backends,
the file read (which may fail), the front-matter parser (data plus body),
and whether a given INSERT is rejected by the database. -/
structure IndexEnv extends EmbedEnv where
  readFile : FileEntry → Except String String
  matter : String → FrontMatter × String
  insertFails : List Doc → Doc → Bool

/-- Translation of `processFile` (indexer.ts): read and parse the file,
derive slug, title and tags, build the embedding text, generate the
embedding, and assemble the document; any step's error propagates. -/
def processFile (env : IndexEnv) (f : FileEntry)
    (embeddingOptions : EmbeddingOptions) : Except String Doc :=
  match env.readFile f with
  | Except.error e => Except.error e
  | Except.ok raw =>
    let frontMatter := (env.matter raw).1
    let markdown := (env.matter raw).2
    let slug := slugOfPath f.relativePath
    let title := deriveTitle frontMatter.title f.relativePath
    let tags := frontMatter.tags.getD []
    let embeddingText := prepareTextForEmbedding
      { title := some title
        description := frontMatter.description
        content := some markdown
        tags := some tags }
    match (generateEmbedding env.toEmbedEnv embeddingText embeddingOptions).out with
    | Except.error e => Except.error e
    | Except.ok embedding =>
      Except.ok { slug := slug, title := title, content := markdown
                  folder := f.folder, tags := tags, embedding := embedding }

/-- Translation of `insertDocument` (indexer.ts): the INSERT either fails
(the database rejects it) or appends the row. -/
def insertDocument (env : IndexEnv) (rows : List Doc) (d : Doc) :
    Except String (List Doc) :=
  if env.insertFails rows d then Except.error "insert failed"
  else Except.ok (rows ++ [d])

/-- The per-file loop of `indexContent` (indexer.ts): each file is
processed and inserted inside a try/catch; an error from either step
increments `failed` and the loop continues, a completed insert increments
`success`. Returns the counters, the table rows, and the trace of writes
issued. -/
def indexLoop (env : IndexEnv) (embeddingOptions : EmbeddingOptions) :
    List FileEntry → List Doc → Nat → Nat → List StoreOp →
    Nat × Nat × List Doc × List StoreOp
  | [], rows, success, failed, ops => (success, failed, rows, ops)
  | f :: rest, rows, success, failed, ops =>
    match processFile env f embeddingOptions with
    | Except.error _ => indexLoop env embeddingOptions rest rows success (failed + 1) ops
    | Except.ok d =>
      match insertDocument env rows d with
      | Except.error _ =>
        indexLoop env embeddingOptions rest rows success (failed + 1) ops
      | Except.ok rows' =>
        indexLoop env embeddingOptions rest rows' (success + 1) failed
          (ops ++ [StoreOp.insertRow d])

/-- The summary returned by `indexContent`. -/
structure IndexResult where
  success : Nat
  failed : Nat
  total : Nat
deriving DecidableEq, Repr

/-- Translation of `indexContent` (indexer.ts), with file discovery (the
external recursive walk) supplied as the list of found files: when no file
is found return zeroed counters and touch nothing; otherwise clear the
table (`DELETE FROM`) and run the per-file loop over an empty table.
Returns the summary, the final table rows, and the trace of writes. -/
def indexContent (env : IndexEnv) (files : List FileEntry)
    (embeddingOptions : EmbeddingOptions) (rows : List Doc) :
    IndexResult × List Doc × List StoreOp :=
  if files.length = 0 then
    ({ success := 0, failed := 0, total := 0 }, rows, [])
  else
    let r := indexLoop env embeddingOptions files [] 0 0 [StoreOp.deleteAll]
    ({ success := r.1, failed := r.2.1, total := files.length }, r.2.2.1, r.2.2.2)

/-! ### search.ts : search -/

/-- A stored row as seen by the search query; `embedding = none` models a
NULL embedding column, `tags` is the serialized text column. -/
structure SearchRow where
  id : Nat
  slug : String
  title : String
  content : String
  folder : String
  tags : String
  created_at : String
  embedding : Option (List Scalar)

/-- A row of the result set returned by `search`. -/
structure SearchResult where
  id : Nat
  slug : String
  title : String
  content : String
  folder : String
  tags : List String
  distance : Scalar
  created_at : String

/-- Options record of `search` (the client and table name select the row
set, which is passed directly). -/
structure SearchOptions where
  limit : Option Nat := none
  embeddingOptions : EmbeddingOptions := {}

/-- Environment of external collaborators for search: the embedding
backends, the database's `vector_distance_cos`, and `JSON.parse` applied to
the serialized tags column. -/
structure SearchEnv extends EmbedEnv where
  dist : List Scalar → List Scalar → Scalar
  parseTags : String → List String

/-- Translation of `search` (search.ts), with the database's execution of
the query modelled row by row: embed the query (an error propagates), keep
the rows whose embedding is non-NULL, attach each row's cosine distance to
the query embedding, order ascending by distance, keep at most `limit`
rows (default 10), and deserialize each kept row into a result record. -/
def search (env : SearchEnv) (rows : List SearchRow) (query : String)
    (options : SearchOptions) : Except String (List SearchResult) :=
  let limit := options.limit.getD 10
  match (generateEmbedding env.toEmbedEnv query options.embeddingOptions).out with
  | Except.error e => Except.error e
  | Except.ok queryEmbedding =>
    let withEmbedding := rows.filter (fun row => row.embedding.isSome)
    let scored := withEmbedding.map
      (fun row => (row, env.dist (row.embedding.getD []) queryEmbedding))
    let ordered := scored.mergeSort (fun a b => a.2 ≤ b.2)
    Except.ok ((ordered.take limit).map (fun p =>
      { id := p.1.id, slug := p.1.slug, title := p.1.title
        content := p.1.content, folder := p.1.folder
        tags := env.parseTags (if p.1.tags = "" then "[]" else p.1.tags)
        distance := p.2
        created_at := p.1.created_at }))

/-! ## Helper lemmas -/

theorem padEmbedding_length (v : List Scalar) (n : Nat) :
    (padEmbedding v n).length = n := by
  unfold padEmbedding
  by_cases h1 : v.length = n
  · simp [h1]
  · by_cases h2 : v.length > n
    · simp [h1, h2, List.length_take]
      omega
    · simp [h1, h2, List.length_append, List.length_replicate]
      omega

theorem tagsLine_ne_empty (s : String) : "Tags: " ++ s ≠ "" := by
  intro h
  have hd := congrArg String.data h
  rw [String.data_append] at hd
  have h2 : ("Tags: ").data = [] := (List.append_eq_nil.mp hd).1
  exact absurd h2 (by decide)

theorem filter_pushTruthy (o : Option String) :
    List.filter (fun p => p ≠ "") (pushTruthy o)
      = match o with
        | some x => if x = "" then [] else [x]
        | none => [] := by
  rcases o with _ | x
  · simp [pushTruthy, truthyStr]
  · by_cases hx : x = "" <;> simp [pushTruthy, truthyStr, hx]

theorem filter_tagsPart (o : Option (List String)) :
    List.filter (fun p => p ≠ "") (tagsPart o)
      = match o with
        | some ts =>
          if ts = [] then [] else ["Tags: " ++ String.intercalate ", " ts]
        | none => [] := by
  rcases o with _ | ts
  · simp [tagsPart]
  · rcases ts with _ | ⟨t, ts⟩
    · simp [tagsPart]
    · simp [tagsPart, tagsLine_ne_empty]

/-! ## C4 : padEmbedding pads or truncates to the exact target length -/

/-- **C4**: for every vector `v` and target `n`, `padEmbedding v n` has
length exactly `n`; it is `v` itself when the length already matches, the
first `n` elements when `v` is longer, and `v` followed by `n - len v`
zeros when `v` is shorter. -/
theorem padEmbedding_spec (v : List Scalar) (n : Nat) :
    (padEmbedding v n).length = n
    ∧ (v.length = n → padEmbedding v n = v)
    ∧ (v.length > n → padEmbedding v n = v.take n)
    ∧ (v.length < n → padEmbedding v n = v ++ List.replicate (n - v.length) 0) := by
  refine ⟨padEmbedding_length v n, ?_, ?_, ?_⟩ <;> intro h <;> unfold padEmbedding
  · simp [h]
  · simp [Nat.ne_of_gt h, h]
  · simp [Nat.ne_of_lt h, Nat.not_lt.mpr (Nat.le_of_lt h)]

/-- Witness for C4: the conditional parts evaluated at a concrete short
vector. -/
theorem padEmbedding_spec_witness :
    (padEmbedding [1, 2, 3] 5).length = 5
    ∧ padEmbedding [1, 2, 3] 5 = [1, 2, 3] ++ List.replicate (5 - 3) 0 := by
  have h := padEmbedding_spec [1, 2, 3] 5
  exact ⟨h.1, h.2.2.2 (by decide)⟩

/-! ## C5 : prepareTextForEmbedding concatenates the present parts -/

/-- The claim's description of one optional text field's contribution:
included only when present and non-empty. -/
def claimedField : Option String → List String
  | some x => if x = "" then [] else [x]
  | none => []

/-- The claim's description of the tags contribution: the line
`"Tags: "` followed by the comma-space-joined tags, only when tags is
present and non-empty. -/
def claimedTags : Option (List String) → List String
  | some ts => if ts = [] then [] else ["Tags: " ++ String.intercalate ", " ts]
  | none => []

/-- The parts the claim enumerates, in the claim's order. -/
def claimedParts (fields : EmbedFields) : List String :=
  claimedField fields.title ++ claimedField fields.description ++
  claimedTags fields.tags ++ claimedField fields.content

/-- **C5**: `prepareTextForEmbedding` returns exactly the present,
non-empty parts in the claim's order, joined by one blank line, with no
stray separators; including the claim's concrete examples. -/
theorem prepareTextForEmbedding_spec :
    (∀ fields, prepareTextForEmbedding fields
        = String.intercalate "\n\n" (claimedParts fields))
    ∧ prepareTextForEmbedding
        { title := some "T", description := some "D", content := some "C" }
        = "T\n\nD\n\nC"
    ∧ prepareTextForEmbedding { title := some "T", tags := some [] } = "T" := by
  refine ⟨?_, by decide, by decide⟩
  intro fields
  unfold prepareTextForEmbedding claimedParts
  simp only [List.filter_append, filter_pushTruthy, filter_tagsPart]
  rfl

/-! ## C2 / C3 : indexContent frame and counter properties -/

/-- A concrete environment for witness instantiations: a local model with
a 384-dimension output, remote backends returning vectors of the requested
native sizes, reads and parses that succeed, and a database that accepts
every INSERT. -/
def sampleIndexEnv : IndexEnv :=
  { localModel := fun _ => List.replicate 384 1
    geminiValues := fun _ => List.replicate 768 1
    openaiResponse := fun _ dims => Except.ok (List.replicate dims 1)
    geminiEnvKey := none
    openaiEnvKey := none
    readFile := fun _ => Except.ok "hello"
    matter := fun s => ({}, s)
    insertFails := fun _ _ => false }

/-- A concrete discovered file for witness instantiations. -/
def sampleFile : FileEntry := { dirs := [], name := "a.md" }

theorem indexLoop_ops_prefix (env : IndexEnv) (eo : EmbeddingOptions) :
    ∀ (files : List FileEntry) (rows : List Doc) (s f : Nat) (ops : List StoreOp),
      ∃ extra, (indexLoop env eo files rows s f ops).2.2.2 = ops ++ extra := by
  intro files
  induction files with
  | nil => intro rows s f ops; exact ⟨[], by simp [indexLoop]⟩
  | cons hd tl ih =>
    intro rows s f ops
    unfold indexLoop
    rcases hproc : processFile env hd eo with e | d
    · simpa using ih rows s (f + 1) ops
    · rcases hins : insertDocument env rows d with e | rows'
      · simpa only [hins] using ih rows s (f + 1) ops
      · obtain ⟨extra, hx⟩ := ih rows' (s + 1) f (ops ++ [StoreOp.insertRow d])
        exact ⟨StoreOp.insertRow d :: extra,
          by simpa only [hins, List.append_assoc, List.singleton_append] using hx⟩

/-- **C2**: a scan that discovers zero files returns `{0,0,0}`, leaves the
table rows unchanged and issues no store write at all (in particular no
DELETE); the clearing DELETE is issued exactly when at least one file is
found, as the first write of the run. -/
theorem indexContent_empty_scan (env : IndexEnv) (eo : EmbeddingOptions)
    (rows : List Doc) :
    indexContent env [] eo rows = ({ success := 0, failed := 0, total := 0 }, rows, [])
    ∧ ∀ files : List FileEntry, files ≠ [] →
        ∃ rest, (indexContent env files eo rows).2.2 = StoreOp.deleteAll :: rest := by
  constructor
  · rfl
  · intro files hne
    unfold indexContent
    have hlen : ¬ files.length = 0 := by simpa using hne
    simp only [hlen, if_false]
    obtain ⟨extra, hx⟩ :=
      indexLoop_ops_prefix env eo files [] 0 0 [StoreOp.deleteAll]
    exact ⟨extra, by simpa using hx⟩

/-- Witness for C2 at a concrete environment: an empty scan touches
nothing, and a one-file scan starts with the clearing DELETE. -/
theorem indexContent_empty_scan_witness :
    indexContent sampleIndexEnv [] {} []
      = ({ success := 0, failed := 0, total := 0 }, [], [])
    ∧ ∃ rest, (indexContent sampleIndexEnv [sampleFile] {} []).2.2
        = StoreOp.deleteAll :: rest := by
  have h := indexContent_empty_scan sampleIndexEnv {} []
  exact ⟨h.1, h.2 [sampleFile] (by simp)⟩

theorem indexLoop_counts (env : IndexEnv) (eo : EmbeddingOptions) :
    ∀ (files : List FileEntry) (rows : List Doc) (s f : Nat) (ops : List StoreOp),
      (indexLoop env eo files rows s f ops).1
        + (indexLoop env eo files rows s f ops).2.1
        = s + f + files.length := by
  intro files
  induction files with
  | nil => intro rows s f ops; simp [indexLoop]
  | cons hd tl ih =>
    intro rows s f ops
    unfold indexLoop
    rcases hproc : processFile env hd eo with e | d
    · have := ih rows s (f + 1) ops
      simp only [List.length_cons]
      omega
    · rcases hins : insertDocument env rows d with e | rows'
      · have := ih rows s (f + 1) ops
        simp only [hins, List.length_cons]
        omega
      · have := ih rows' (s + 1) f (ops ++ [StoreOp.insertRow d])
        simp only [hins, List.length_cons]
        omega

/-- **C3**: on every completed `indexContent` run the counters satisfy
`success + failed = total` and `total` is the number of discovered files —
each file increments exactly one of the two counters, and a per-file error
is absorbed without aborting the run (the loop is total and every file is
accounted for). -/
theorem indexContent_counts (env : IndexEnv) (files : List FileEntry)
    (eo : EmbeddingOptions) (rows : List Doc) :
    ((indexContent env files eo rows).1).success
        + ((indexContent env files eo rows).1).failed
      = ((indexContent env files eo rows).1).total
    ∧ ((indexContent env files eo rows).1).total = files.length := by
  unfold indexContent
  by_cases h : files.length = 0
  · simp [h]
  · simp only [h, if_false]
    refine ⟨?_, by trivial⟩
    simpa using indexLoop_counts env eo files [] 0 0 [StoreOp.deleteAll]

/-! ## C8 : configuration errors fail fast, before any backend effect -/

/-- **C8**: a remote provider with no API key in the options and none in
the environment fails with an error naming the missing key, with an empty
effect trace (no client construction, no request); an unrecognized
provider name fails naming the value, also effect-free; and an omitted
provider falls back to the documented default local path only. -/
theorem generateEmbedding_config_errors (env : EmbedEnv) (text : String)
    (opts : EmbeddingOptions) :
    (opts.provider = some "gemini" → opts.apiKey = none → env.geminiEnvKey = none →
      generateEmbedding env text opts
        = { out := Except.error "GEMINI_API_KEY is required for Gemini embeddings"
            effects := [] })
    ∧ (opts.provider = some "openai" → opts.apiKey = none → env.openaiEnvKey = none →
      generateEmbedding env text opts
        = { out := Except.error "OPENAI_API_KEY is required for OpenAI embeddings"
            effects := [] })
    ∧ (∀ p, opts.provider = some p → p ≠ "local" → p ≠ "gemini" → p ≠ "openai" →
      generateEmbedding env text opts
        = { out := Except.error ("Unknown embedding provider: " ++ p), effects := [] })
    ∧ (opts.provider = none →
      generateEmbedding env text opts
        = generateLocalEmbedding env (text.take (opts.maxLength.getD 8000))
            (opts.dimensions.getD 768)) := by
  refine ⟨?_, ?_, ?_, ?_⟩
  · intro hp hk he
    simp [generateEmbedding, hp, generateGeminiEmbedding, resolveKey, truthyStr, hk, he]
  · intro hp hk he
    simp [generateEmbedding, hp, generateOpenAIEmbedding, resolveKey, truthyStr, hk, he]
  · intro p hp h1 h2 h3
    simp [generateEmbedding, hp, h1, h2, h3]
  · intro hp
    simp [generateEmbedding, hp]

/-- Witness for C8 at concrete inputs: both remote providers without any
key, and a misspelled provider name, each effect-free. -/
theorem generateEmbedding_config_errors_witness :
    generateEmbedding sampleIndexEnv.toEmbedEnv "hi" { provider := some "gemini" }
      = { out := Except.error "GEMINI_API_KEY is required for Gemini embeddings"
          effects := [] }
    ∧ generateEmbedding sampleIndexEnv.toEmbedEnv "hi" { provider := some "openai" }
      = { out := Except.error "OPENAI_API_KEY is required for OpenAI embeddings"
          effects := [] }
    ∧ generateEmbedding sampleIndexEnv.toEmbedEnv "hi" { provider := some "cohere" }
      = { out := Except.error ("Unknown embedding provider: " ++ "cohere")
          effects := [] } := by
  refine ⟨?_, ?_, ?_⟩
  · exact (generateEmbedding_config_errors sampleIndexEnv.toEmbedEnv "hi"
      { provider := some "gemini" }).1 rfl rfl rfl
  · exact (generateEmbedding_config_errors sampleIndexEnv.toEmbedEnv "hi"
      { provider := some "openai" }).2.1 rfl rfl rfl
  · exact (generateEmbedding_config_errors sampleIndexEnv.toEmbedEnv "hi"
      { provider := some "cohere" }).2.2.1 "cohere" rfl
      (by decide) (by decide) (by decide)

/-! ## C9 : an empty front-matter title falls back like an absent one -/

/-- **C9**: in the title derivation of `processFile`, a present-but-empty
front-matter title behaves exactly like an absent one: the stored title is
the filename-derived form when that is non-empty, and the literal
`"Untitled"` only when the derivation is empty; a non-empty front-matter
title is used as-is. -/
theorem deriveTitle_empty_as_absent :
    (∀ rel, deriveTitle (some "") rel = deriveTitle none rel)
    ∧ (∀ rel, titleFromPath rel ≠ "" → deriveTitle (some "") rel = titleFromPath rel)
    ∧ (∀ rel, titleFromPath rel = "" → deriveTitle (some "") rel = "Untitled")
    ∧ (∀ rel t, t ≠ "" → deriveTitle (some t) rel = t) := by
  refine ⟨?_, ?_, ?_, ?_⟩
  · intro rel
    simp [deriveTitle, truthyStr]
  · intro rel h
    simp [deriveTitle, truthyStr, h]
  · intro rel h
    simp [deriveTitle, truthyStr, h]
  · intro rel t h
    simp [deriveTitle, truthyStr, h]

/-- Witness for C9 at concrete inputs: the repository test's
`no-frontmatter.md`, and a file whose derivation is empty. -/
theorem deriveTitle_empty_as_absent_witness :
    deriveTitle (some "") "no-frontmatter.md" = "no frontmatter"
    ∧ deriveTitle (some "") ".md" = "Untitled" := by
  have h := deriveTitle_empty_as_absent
  refine ⟨?_, h.2.2.1 ".md" (by decide)⟩
  rw [h.2.1 "no-frontmatter.md" (by decide)]
  decide

/-! ## C7 : slug and folder derivation -/

theorem joinPath_cons_of_ne_nil (x : List Char) (l : List (List Char))
    (h : l ≠ []) : joinPath (x :: l) = x ++ '/' :: joinPath l := by
  cases l with
  | nil => exact absurd rfl h
  | cons y ys => rfl

theorem joinPath_snoc_append (xs : List (List Char)) (y ext : List Char) :
    joinPath (xs ++ [y ++ ext]) = joinPath (xs ++ [y]) ++ ext := by
  induction xs with
  | nil => rfl
  | cons x xs ih =>
    rw [List.cons_append, List.cons_append,
        joinPath_cons_of_ne_nil x (xs ++ [y ++ ext]) (by simp),
        joinPath_cons_of_ne_nil x (xs ++ [y]) (by simp), ih]
    simp

theorem stripMdExtChars_append_md (A : List Char) :
    stripMdExtChars (A ++ ['.', 'm', 'd']) = A := by
  have hsuf : List.isSuffixOf ['.', 'm', 'd'] (A ++ ['.', 'm', 'd']) = true := by
    simp [List.isSuffixOf]
  unfold stripMdExtChars
  rw [if_pos hsuf]
  have hlen : (A ++ ['.', 'm', 'd']).length - 3 = A.length := by
    simp
  rw [hlen, List.take_left]

theorem not_md_suffix_of_markdown (A : List Char) :
    ¬ List.isSuffixOf ['.', 'm', 'd']
      (A ++ ['.', 'm', 'a', 'r', 'k', 'd', 'o', 'w', 'n']) = true := by
  intro h
  have hs : ['.', 'm', 'd'] <:+ A ++ ['.', 'm', 'a', 'r', 'k', 'd', 'o', 'w', 'n'] := by
    rw [List.isSuffixOf, List.isPrefixOf_iff_prefix] at h
    exact List.reverse_prefix.mp h
  obtain ⟨t, ht⟩ := hs
  have h1 := congrArg List.getLast? ht
  simp [List.getLast?_append] at h1

theorem stripMdExtChars_append_markdown (A : List Char) :
    stripMdExtChars (A ++ ['.', 'm', 'a', 'r', 'k', 'd', 'o', 'w', 'n']) = A := by
  have hsuf : List.isSuffixOf ['.', 'm', 'a', 'r', 'k', 'd', 'o', 'w', 'n']
      (A ++ ['.', 'm', 'a', 'r', 'k', 'd', 'o', 'w', 'n']) = true := by
    simp [List.isSuffixOf]
  unfold stripMdExtChars
  rw [if_neg (not_md_suffix_of_markdown A), if_pos hsuf]
  have hlen : (A ++ ['.', 'm', 'a', 'r', 'k', 'd', 'o', 'w', 'n']).length - 9
      = A.length := by
    simp
  rw [hlen, List.take_left]

theorem normalizeSeps_of_no_backslash (s : List Char)
    (h : ∀ c ∈ s, c ≠ '\\') : normalizeSeps s = s := by
  unfold normalizeSeps
  conv_rhs => rw [← List.map_id s]
  exact List.map_congr_left fun c hc => by simp [h c hc]

theorem mem_stripMdExtChars (s : List Char) (c : Char)
    (h : c ∈ stripMdExtChars s) : c ∈ s := by
  unfold stripMdExtChars at h
  split_ifs at h with h1 h2
  · exact List.mem_of_mem_take h
  · exact List.mem_of_mem_take h
  · exact h

/-- Common slug argument: when the file name is a base followed by a
stripped extension, and the relative path carries no backslash, the slug's
characters are the joined directory segments followed by the base. -/
theorem slugOfPath_data_of_stripped (f : FileEntry) (base ext : List Char)
    (hname : f.name.data = base ++ ext)
    (hstrip : stripMdExtChars (joinPath (f.dirs.map String.data ++ [base]) ++ ext)
        = joinPath (f.dirs.map String.data ++ [base]))
    (hnb : ∀ c ∈ (FileEntry.relativePath f).data, c ≠ '\\') :
    (slugOfPath f.relativePath).data
      = joinPath (f.dirs.map String.data ++ [base]) := by
  have hrel : (FileEntry.relativePath f).data
      = joinPath (f.dirs.map String.data ++ [base ++ ext]) := by
    show joinPath ((f.dirs ++ [f.name]).map String.data) = _
    rw [List.map_append, List.map_singleton, hname]
  show normalizeSeps (stripMdExtChars (FileEntry.relativePath f).data) = _
  rw [hrel, joinPath_snoc_append, hstrip]
  refine normalizeSeps_of_no_backslash _ fun c hc => ?_
  refine hnb c ?_
  rw [hrel, joinPath_snoc_append]
  exact List.mem_append_left _ hc

/-- **C7**: the stored slug is the relative path with the markdown
extension (`.md` or `.markdown`) stripped and separators normalized, and
the stored folder is the directory component with the sentinel `"root"` at
the content root — stated generally over discovered files (given by their
path segments) for both extensions, and at concrete examples of both
extensions including the claim's two. -/
theorem slug_and_folder_spec :
    (slugOfPath (FileEntry.relativePath ⟨["nested"], "my-article.md"⟩)
        = "nested/my-article"
      ∧ FileEntry.folder ⟨["nested"], "my-article.md"⟩ = "nested")
    ∧ (slugOfPath (FileEntry.relativePath ⟨[], "root-file.md"⟩) = "root-file"
      ∧ FileEntry.folder ⟨[], "root-file.md"⟩ = "root")
    ∧ (slugOfPath (FileEntry.relativePath ⟨["nested"], "my-article.markdown"⟩)
        = "nested/my-article"
      ∧ slugOfPath (FileEntry.relativePath ⟨[], "root-file.markdown"⟩)
        = "root-file")
    ∧ (∀ (f : FileEntry) (base : List Char),
        f.name.data = base ++ ['.', 'm', 'd'] →
        (∀ c ∈ (FileEntry.relativePath f).data, c ≠ '\\') →
        (slugOfPath f.relativePath).data
          = joinPath (f.dirs.map String.data ++ [base]))
    ∧ (∀ (f : FileEntry) (base : List Char),
        f.name.data = base ++ ['.', 'm', 'a', 'r', 'k', 'd', 'o', 'w', 'n'] →
        (∀ c ∈ (FileEntry.relativePath f).data, c ≠ '\\') →
        (slugOfPath f.relativePath).data
          = joinPath (f.dirs.map String.data ++ [base]))
    ∧ (∀ f : FileEntry, f.dirs = [] → f.folder = "root")
    ∧ (∀ f : FileEntry, f.dirs ≠ [] →
        String.mk (joinPath (f.dirs.map String.data)) ≠ "." →
        f.folder = String.mk (joinPath (f.dirs.map String.data))) := by
  refine ⟨⟨by decide, by decide⟩, ⟨by decide, by decide⟩, ⟨by decide, by decide⟩,
    ?_, ?_, ?_, ?_⟩
  · intro f base hname hnb
    exact slugOfPath_data_of_stripped f base ['.', 'm', 'd'] hname
      (stripMdExtChars_append_md _) hnb
  · intro f base hname hnb
    exact slugOfPath_data_of_stripped f base
      ['.', 'm', 'a', 'r', 'k', 'd', 'o', 'w', 'n'] hname
      (stripMdExtChars_append_markdown _) hnb
  · intro f h
    simp [FileEntry.folder, h]
  · intro f h1 h2
    have hne : f.dirs.isEmpty = false := by
      simpa [List.isEmpty_iff] using h1
    simp [FileEntry.folder, hne, h2]

/-- Witness for C7: the general slug statements instantiated at a nested
`.md` file and a nested `.markdown` file, and the non-root folder statement
at the same file. -/
theorem slug_and_folder_spec_witness :
    (slugOfPath (FileEntry.relativePath ⟨["nested"], "my-article.md"⟩)).data
      = joinPath ((["nested"] : List String).map String.data ++ ["my-article".data])
    ∧ (slugOfPath (FileEntry.relativePath ⟨["nested"], "my-article.markdown"⟩)).data
      = joinPath ((["nested"] : List String).map String.data ++ ["my-article".data])
    ∧ FileEntry.folder ⟨["nested"], "my-article.md"⟩
      = String.mk (joinPath ((["nested"] : List String).map String.data)) := by
  have h := slug_and_folder_spec
  exact ⟨h.2.2.2.1 ⟨["nested"], "my-article.md"⟩ "my-article".data
          (by decide) (by decide),
        h.2.2.2.2.1 ⟨["nested"], "my-article.markdown"⟩ "my-article".data
          (by decide) (by decide),
        h.2.2.2.2.2.2 ⟨["nested"], "my-article.md"⟩ (by simp) (by decide)⟩

/-! ## C1 : stored embedding dimensionality -/

theorem indexLoop_mem (env : IndexEnv) (eo : EmbeddingOptions) :
    ∀ (files : List FileEntry) (rows : List Doc) (s f : Nat) (ops : List StoreOp)
      (d : Doc), d ∈ (indexLoop env eo files rows s f ops).2.2.1 →
      d ∈ rows ∨ ∃ fl, processFile env fl eo = Except.ok d := by
  intro files
  induction files with
  | nil =>
    intro rows s f ops d hd
    exact Or.inl (by simpa [indexLoop] using hd)
  | cons hd tl ih =>
    intro rows s f ops d hmem
    unfold indexLoop at hmem
    rcases hproc : processFile env hd eo with e | doc
    · simp only [hproc] at hmem
      exact ih rows s (f + 1) ops d hmem
    · simp only [hproc] at hmem
      rcases hins : insertDocument env rows doc with e | rows'
      · simp only [hins] at hmem
        exact ih rows s (f + 1) ops d hmem
      · simp only [hins] at hmem
        have hrows' : rows' = rows ++ [doc] := by
          unfold insertDocument at hins
          by_cases hf : env.insertFails rows doc = true
          · rw [if_pos hf] at hins
            cases hins
          · rw [if_neg hf] at hins
            exact (Except.ok.inj hins).symm
        rcases ih rows' (s + 1) f (ops ++ [StoreOp.insertRow doc]) d hmem with
          hin | hok
        · rw [hrows'] at hin
          rcases List.mem_append.mp hin with hin | hin
          · exact Or.inl hin
          · exact Or.inr ⟨hd, by simpa using (List.mem_singleton.mp hin ▸ hproc)⟩
        · exact Or.inr hok

theorem generateEmbedding_local_out (env : EmbedEnv) (t : String)
    (opts : EmbeddingOptions) (h : opts.provider.getD "local" = "local") :
    (generateEmbedding env t opts).out
      = Except.ok (padEmbedding (env.localModel (t.take (opts.maxLength.getD 8000)))
          (opts.dimensions.getD 768)) := by
  simp [generateEmbedding, h, generateLocalEmbedding]

theorem processFile_ok_embedding (env : IndexEnv) (f : FileEntry)
    (eo : EmbeddingOptions) (d : Doc) (h : processFile env f eo = Except.ok d) :
    ∃ text, (generateEmbedding env.toEmbedEnv text eo).out
      = Except.ok d.embedding := by
  unfold processFile at h
  rcases hr : env.readFile f with e | raw
  · simp only [hr] at h
    cases h
  · simp only [hr] at h
    rcases hg : (generateEmbedding env.toEmbedEnv
        (prepareTextForEmbedding
          { title := some (deriveTitle (env.matter raw).1.title f.relativePath)
            description := (env.matter raw).1.description
            content := some (env.matter raw).2
            tags := some ((env.matter raw).1.tags.getD []) }) eo).out with
      e | emb
    · simp only [hg] at h
      cases h
    · simp only [hg] at h
      refine ⟨prepareTextForEmbedding
          { title := some (deriveTitle (env.matter raw).1.title f.relativePath)
            description := (env.matter raw).1.description
            content := some (env.matter raw).2
            tags := some ((env.matter raw).1.tags.getD []) }, ?_⟩
      rw [hg]
      have hd : d.embedding = emb := by
        cases h
        rfl
      rw [hd]

/-- Counterexample environment for C1: the Gemini backend natively returns
a 768-dimension vector, both keys are supplied through the environment,
reads and parses succeed, and the database accepts every INSERT. -/
def geminiNativeEnv : IndexEnv :=
  { localModel := fun _ => List.replicate 384 1
    geminiValues := fun _ => List.replicate 768 1
    openaiResponse := fun _ dims => Except.ok (List.replicate dims 1)
    geminiEnvKey := some "k"
    openaiEnvKey := none
    readFile := fun _ => Except.ok "hello"
    matter := fun s => ({}, s)
    insertFails := fun _ _ => false }

/-- Options requesting provider gemini with a 512-dimension target, a
dimensionality different from the backend's native 768. -/
def geminiOpts512 : EmbeddingOptions :=
  { provider := some "gemini", dimensions := some 512 }

set_option maxRecDepth 10000 in
/-- Counterexample for C1: with the Gemini provider and a requested
dimensionality of 512, the document stored by `indexContent` carries the
backend's native 768-length vector — no pad/truncate is applied on the
remote path, so the stored length does not equal the configured target. -/
theorem stored_dimensions_cex :
    ¬ ∀ d ∈ (indexContent geminiNativeEnv [sampleFile] geminiOpts512 []).2.1,
        d.embedding.length = geminiOpts512.dimensions.getD 768 := by
  decide

/-- **C1 (amended)**: with the local provider, every document stored by a
non-empty `indexContent` run carries an embedding of exactly the configured
target dimensionality (default 768), enforced by pad/truncate at generation
time; the remote providers instead store the backend's output unchanged —
Gemini ignores the requested dimensionality entirely, and OpenAI forwards
it to the API and stores whatever the response contains. -/
theorem stored_dimensions (env : IndexEnv) (eo : EmbeddingOptions) :
    (eo.provider.getD "local" = "local" →
      ∀ (files : List FileEntry) (rows : List Doc), files ≠ [] →
        ∀ d ∈ (indexContent env files eo rows).2.1,
          d.embedding.length = eo.dimensions.getD 768)
    ∧ (∀ t k, eo.provider = some "gemini" →
        resolveKey eo.apiKey env.geminiEnvKey = some k →
        (generateEmbedding env.toEmbedEnv t eo).out
          = Except.ok (env.geminiValues (t.take (eo.maxLength.getD 8000))))
    ∧ (∀ t k emb, eo.provider = some "openai" →
        resolveKey eo.apiKey env.openaiEnvKey = some k →
        env.openaiResponse (t.take (eo.maxLength.getD 8000))
            (eo.dimensions.getD 768) = Except.ok emb →
        (generateEmbedding env.toEmbedEnv t eo).out = Except.ok emb) := by
  refine ⟨?_, ?_, ?_⟩
  · intro hloc files rows hne d hd
    unfold indexContent at hd
    have hlen : ¬ files.length = 0 := by simpa using hne
    simp only [hlen, if_false] at hd
    rcases indexLoop_mem env eo files [] 0 0 [StoreOp.deleteAll] d hd with
      hin | ⟨fl, hfl⟩
    · simp at hin
    · obtain ⟨text, hout⟩ := processFile_ok_embedding env fl eo d hfl
      rw [generateEmbedding_local_out env.toEmbedEnv text eo hloc] at hout
      have := Except.ok.inj hout
      rw [← this]
      exact padEmbedding_length _ _
  · intro t k hp hk
    simp [generateEmbedding, hp, generateGeminiEmbedding, hk]
  · intro t k emb hp hk hresp
    simp [generateEmbedding, hp, generateOpenAIEmbedding, hk, hresp]

set_option maxRecDepth 10000 in
/-- Witness for C1 (amended): a concrete one-file local-provider run stores
exactly one document, whose embedding length is the default 768. -/
theorem stored_dimensions_witness :
    ((indexContent sampleIndexEnv [sampleFile] { provider := some "local" } []).2.1.map
        (fun d => d.embedding.length)) = [768]
    ∧ ∀ d ∈ (indexContent sampleIndexEnv [sampleFile]
          { provider := some "local" } []).2.1,
        d.embedding.length
          = ({ provider := some "local" } : EmbeddingOptions).dimensions.getD 768 := by
  refine ⟨by decide, ?_⟩
  exact (stored_dimensions sampleIndexEnv { provider := some "local" }).1
    rfl [sampleFile] [] (by simp)

/-! ## C6 : search result shape -/

/-- **C6**: whenever the query embedding is produced and `search` returns a
result set, that set only contains rows whose stored embedding is non-null,
is ordered ascending by the cosine distance to the query embedding,
contains at most `limit` entries (default 10), and an empty store yields
the empty sequence rather than an error. -/
theorem search_spec (env : SearchEnv) (rows : List SearchRow) (query : String)
    (opts : SearchOptions) (qe : List Scalar) (res : List SearchResult)
    (hq : (generateEmbedding env.toEmbedEnv query opts.embeddingOptions).out
      = Except.ok qe)
    (hr : search env rows query opts = Except.ok res) :
    res.length ≤ opts.limit.getD 10
    ∧ (∀ x ∈ res, ∃ row ∈ rows, row.embedding.isSome
        ∧ x.id = row.id ∧ x.slug = row.slug
        ∧ x.distance = env.dist (row.embedding.getD []) qe)
    ∧ List.Pairwise (fun a b => a.distance ≤ b.distance) res
    ∧ (rows = [] → res = []) := by
  unfold search at hr
  simp only [hq] at hr
  have hres := (Except.ok.inj hr).symm
  subst hres
  refine ⟨?_, ?_, ?_, ?_⟩
  · simp only [List.length_map, List.length_take]
    omega
  · intro x hx
    rcases List.mem_map.mp hx with ⟨p, hp, hgx⟩
    have hp2 : p ∈ (rows.filter (fun row => row.embedding.isSome)).map
        (fun row => (row, env.dist (row.embedding.getD []) qe)) :=
      (List.mergeSort_perm _ _).mem_iff.mp (List.mem_of_mem_take hp)
    rcases List.mem_map.mp hp2 with ⟨row, hrow, hprow⟩
    rcases List.mem_filter.mp hrow with ⟨hrows, hsome⟩
    refine ⟨row, hrows, by simpa using hsome, ?_, ?_, ?_⟩ <;>
      rw [← hgx, ← hprow]
  · have htrans : ∀ a b c : SearchRow × Scalar,
        decide (a.2 ≤ b.2) = true → decide (b.2 ≤ c.2) = true →
        decide (a.2 ≤ c.2) = true := by
      intro a b c hab hbc
      simp only [decide_eq_true_eq] at *
      exact le_trans hab hbc
    have htotal : ∀ a b : SearchRow × Scalar,
        (decide (a.2 ≤ b.2) || decide (b.2 ≤ a.2)) = true := by
      intro a b
      simpa using le_total a.2 b.2
    have hs := List.sorted_mergeSort htrans htotal
      ((rows.filter (fun row => row.embedding.isSome)).map
        (fun row => (row, env.dist (row.embedding.getD []) qe)))
    have hs2 := hs.sublist (List.take_sublist (opts.limit.getD 10) _)
    refine List.pairwise_map.mpr ?_
    exact hs2.imp fun h => by simpa using h
  · intro h
    subst h
    simp [List.mergeSort]

/-- Concrete environment for the C6 witness. -/
def sampleSearchEnv : SearchEnv :=
  { localModel := fun _ => List.replicate 384 1
    geminiValues := fun _ => List.replicate 768 1
    openaiResponse := fun _ dims => Except.ok (List.replicate dims 1)
    geminiEnvKey := none
    openaiEnvKey := none
    dist := fun _ _ => 0
    parseTags := fun _ => [] }

/-- A concrete store for the C6 witness: one row with an embedding, one
with a NULL embedding. -/
def sampleRows : List SearchRow :=
  [ { id := 1, slug := "a", title := "A", content := "", folder := "root"
      tags := "[]", created_at := "t", embedding := some [1, 2] }
  , { id := 2, slug := "b", title := "B", content := "", folder := "root"
      tags := "[]", created_at := "t", embedding := none } ]

/-- The result set `search` produces on `sampleRows`. -/
def sampleSearchRes : List SearchResult :=
  [ { id := 1, slug := "a", title := "A", content := "", folder := "root"
      tags := [], distance := 0, created_at := "t" } ]

set_option maxRecDepth 10000 in
/-- Witness for C6 at a concrete store and query. -/
theorem search_spec_witness :
    sampleSearchRes.length ≤ ({} : SearchOptions).limit.getD 10
    ∧ List.Pairwise (fun a b => a.distance ≤ b.distance) sampleSearchRes
    ∧ (∀ x ∈ sampleSearchRes, ∃ row ∈ sampleRows, row.embedding.isSome
        ∧ x.id = row.id ∧ x.slug = row.slug
        ∧ x.distance = sampleSearchEnv.dist (row.embedding.getD [])
            (padEmbedding (List.replicate 384 1) 768)) := by
  have hr : search sampleSearchEnv sampleRows "q" {} = Except.ok sampleSearchRes := by
    simp [search, sampleRows, sampleSearchEnv, sampleSearchRes, generateEmbedding,
      generateLocalEmbedding]
  have h := search_spec sampleSearchEnv sampleRows "q" {}
    (padEmbedding (List.replicate 384 1) 768) sampleSearchRes rfl hr
  exact ⟨h.1, h.2.2.1, h.2.1⟩

end LibsqlSearch
